import Mathlib

/-!
Shallow embedding of the query-string composer of the sushi-train repository.

The program under study is `add_query_params_to_url`, defined twice with
identical text: once in `src/sushi_train/general/urls.py` and once in
`src/sushi_train/main.py`.  The function appends URL-encoded query
parameters to a base URL:

  - `if not params: return base_url`
  - a cleaning loop builds a fresh dict `cleaned_params` skipping values
    that are `None` and coercing names and values with `str`
  - `if not cleaned_params: return base_url`
  - `encoded_query = urlencode(cleaned_params, doseq=True)`
  - the separator is `""` when `base_url` ends with `?` or `&`, `"&"` when
    `base_url` contains `?`, and `"?"` otherwise
  - the result is `base_url + separator + encoded_query`

Python values are modelled by the inductive `PyVal` (`None`, `str`, `int`,
`bool`, `list`); `pyStr`/`pyRepr` model Python's `str`/`repr` on this
universe.  `urlencode(d, doseq=True)` on a dict whose values are strings
joins `quote_plus(k) + "=" + quote_plus(v)` with `"&"`; `quote_plus` keeps
ASCII letters, digits and `_ . - ~`, turns a space into `+`, and
percent-encodes every other character's UTF-8 bytes.  The dict
`cleaned_params` is modelled as an insertion-ordered association list with
overwrite-in-place semantics (`dictInsert`).
-/

namespace SushiTrain

/-- Python values appearing as parameter values: the `None` sentinel,
strings, integers, booleans and lists. -/
inductive PyVal where
  | none
  | str (s : String)
  | int (n : Int)
  | bool (b : Bool)
  | list (xs : List PyVal)

/-- The `value is None` test of the cleaning loop. -/
def PyVal.isNone : PyVal → Bool
  | PyVal.none => true
  | _ => false

mutual

/-- Python `repr` on the modelled value universe: `repr` of a string wraps
it in single quotes, elements of a list are rendered with `repr` and joined
by a comma and a space between square brackets. -/
def pyRepr : PyVal → String
  | PyVal.none => "None"
  | PyVal.str s => String.singleton (Char.ofNat 39) ++ s ++ String.singleton (Char.ofNat 39)
  | PyVal.int n => toString n
  | PyVal.bool b => if b then "True" else "False"
  | PyVal.list xs => "[" ++ String.intercalate ", " (pyReprList xs) ++ "]"

/-- `repr` mapped over the elements of a list value. -/
def pyReprList : List PyVal → List String
  | [] => []
  | v :: vs => pyRepr v :: pyReprList vs

end

/-- Python `str` on the modelled value universe; it agrees with `repr`
except on strings, where it is the identity. -/
def pyStr : PyVal → String
  | PyVal.none => "None"
  | PyVal.str s => s
  | PyVal.int n => toString n
  | PyVal.bool b => if b then "True" else "False"
  | PyVal.list xs => pyRepr (PyVal.list xs)

/-- Characters `urllib.parse.quote` leaves unescaped with `safe=''`:
ASCII letters, digits, and `_ . - ~`. -/
def isUrlSafe (c : Char) : Bool :=
  (65 ≤ c.toNat && c.toNat ≤ 90) || (97 ≤ c.toNat && c.toNat ≤ 122) ||
  (48 ≤ c.toNat && c.toNat ≤ 57) ||
  c.toNat == 95 || c.toNat == 46 || c.toNat == 45 || c.toNat == 126

/-- The UTF-8 bytes of a character, as natural numbers below 256. -/
def utf8Bytes (c : Char) : List Nat :=
  let n := c.toNat
  if n < 128 then [n]
  else if n < 2048 then [192 + n / 64, 128 + n % 64]
  else if n < 65536 then [224 + n / 4096, 128 + (n / 64) % 64, 128 + n % 64]
  else [240 + n / 262144, 128 + (n / 4096) % 64, 128 + (n / 64) % 64, 128 + n % 64]

/-- The uppercase hexadecimal digit for `n < 16`. -/
def hexDigit (n : Nat) : Char :=
  if n < 10 then Char.ofNat (48 + n) else Char.ofNat (55 + n)

/-- Percent-escape of one byte: `%` followed by two uppercase hex digits. -/
def percentEncodeByte (b : Nat) : List Char :=
  [Char.ofNat 37, hexDigit (b / 16), hexDigit (b % 16)]

/-- `urllib.parse.quote_plus` on one character: safe characters are kept,
a space becomes `+`, every other character has its UTF-8 bytes
percent-escaped. -/
def quotePlusChar (c : Char) : List Char :=
  if isUrlSafe c then [c]
  else if c = ' ' then [Char.ofNat 43]
  else ((utf8Bytes c).map percentEncodeByte).flatten

/-- `urllib.parse.quote_plus` on a string. -/
def quotePlus (s : String) : String :=
  String.mk ((s.data.map quotePlusChar).flatten)

/-- `urllib.parse.urlencode(pairs, doseq=True)` on a dict whose values are
all strings: each entry becomes `quote_plus(k) + "=" + quote_plus(v)` and
the entries are joined with `&`. -/
def urlencodeDoseq (pairs : List (String × String)) : String :=
  String.intercalate "&" (pairs.map (fun p => quotePlus p.1 ++ "=" ++ quotePlus p.2))

/-- Insertion into a Python dict modelled as an insertion-ordered
association list: an existing key keeps its position and gets the new
value, a fresh key is appended at the end. -/
def dictInsert (d : List (String × String)) (k v : String) : List (String × String) :=
  if d.any (fun p => p.1 == k) then
    d.map (fun p => if p.1 == k then (p.1, v) else p)
  else d ++ [(k, v)]

/-- The cleaning loop of `add_query_params_to_url`: iterate over the
entries of `params`, skip values that are `None`, and insert
`str(name) ↦ str(value)` into the dict accumulated so far (keys are
already strings, on which `str` is the identity). -/
def cleanedLoop (d : List (String × String)) : List (String × PyVal) → List (String × String)
  | [] => d
  | p :: rest =>
    if p.2.isNone then cleanedLoop d rest
    else cleanedLoop (dictInsert d p.1 (pyStr p.2)) rest

/-- The dict `cleaned_params` built by the cleaning loop from the empty
dict. -/
def cleanedParams (params : List (String × PyVal)) : List (String × String) :=
  cleanedLoop [] params

/-- Python `base_url.endswith(suf)`. -/
def pyEndsWith (s : String) (suf : String) : Bool :=
  suf.data.isSuffixOf s.data

/-- Python `c in base_url` for a single character. -/
def pyContains (s : String) (c : Char) : Bool :=
  s.data.contains c

/-- The separator selection of `add_query_params_to_url`: empty when
`base_url` ends with `?` or `&`, `&` when `base_url` contains `?`
anywhere, `?` otherwise. -/
def chooseSeparator (base_url : String) : String :=
  if pyEndsWith base_url "?" || pyEndsWith base_url "&" then ""
  else if pyContains base_url '?' then "&"
  else "?"

namespace Urls

/-- `add_query_params_to_url` from `src/sushi_train/general/urls.py`.
The `params` argument is an ordered mapping or Python `None`; `if not
params` is true exactly for `None` and the empty mapping. -/
def add_query_params_to_url (base_url : String) (params : Option (List (String × PyVal))) : String :=
  match params with
  | Option.none => base_url
  | Option.some ps =>
    if ps.isEmpty then base_url
    else
      let cleaned_params := cleanedParams ps
      if cleaned_params.isEmpty then base_url
      else
        let encoded_query := urlencodeDoseq cleaned_params
        let separator := chooseSeparator base_url
        base_url ++ separator ++ encoded_query

end Urls

namespace Main

/-- `add_query_params_to_url` from `src/sushi_train/main.py`; its source
text is identical to the copy in `general/urls.py`. -/
def add_query_params_to_url (base_url : String) (params : Option (List (String × PyVal))) : String :=
  match params with
  | Option.none => base_url
  | Option.some ps =>
    if ps.isEmpty then base_url
    else
      let cleaned_params := cleanedParams ps
      if cleaned_params.isEmpty then base_url
      else
        let encoded_query := urlencodeDoseq cleaned_params
        let separator := chooseSeparator base_url
        base_url ++ separator ++ encoded_query

end Main

/-- A shallow state-passing rendering of `add_query_params_to_url`
(`urls.py` copy) that, at every `return` site, also returns the current
values of the argument variables `base_url` and `params`: no statement of
the source assigns to `base_url` or mutates `params` (the loop only writes
into the fresh dict `cleaned_params`), so each return site yields the
variables exactly as they were received. -/
def add_query_params_to_url_st (base_url : String) (params : Option (List (String × PyVal))) :
    String × String × Option (List (String × PyVal)) :=
  match params with
  | Option.none => (base_url, base_url, params)
  | Option.some ps =>
    if ps.isEmpty then (base_url, base_url, params)
    else
      let cleaned_params := cleanedParams ps
      if cleaned_params.isEmpty then (base_url, base_url, params)
      else
        let encoded_query := urlencodeDoseq cleaned_params
        let separator := chooseSeparator base_url
        (base_url ++ separator ++ encoded_query, base_url, params)

/-- A Python object used as a parameter value: either one of the modelled
values, or an object whose `str()` raises (not coercible to text). -/
inductive PyObj where
  | val (v : PyVal)
  | bad

/-- The `value is None` identity test on objects; it never raises, and the
uncoercible object is not `None`. -/
def PyObj.isNoneObj : PyObj → Bool
  | PyObj.val v => v.isNone
  | PyObj.bad => false

/-- Whether an object is the uncoercible one. -/
def PyObj.isBad : PyObj → Bool
  | PyObj.bad => true
  | _ => false

/-- Python `str()` as a fallible operation: it raises exactly on the
uncoercible object. -/
def pyStrE : PyObj → Except String String
  | PyObj.val v => Except.ok (pyStr v)
  | PyObj.bad => Except.error "coercion error"

/-- The cleaning loop with exception propagation: a raise from `str(value)`
aborts the loop immediately and propagates. -/
def cleanedLoopE (d : List (String × String)) :
    List (String × PyObj) → Except String (List (String × String))
  | [] => Except.ok d
  | p :: rest =>
    if p.2.isNoneObj then cleanedLoopE d rest
    else
      match pyStrE p.2 with
      | Except.error e => Except.error e
      | Except.ok s => cleanedLoopE (dictInsert d p.1 s) rest

/-- `add_query_params_to_url` (`urls.py` copy) with exception propagation:
the only fallible step is the `str(value)` coercion in the cleaning loop;
an exception raised there propagates to the caller uncaught and no partial
result is produced. -/
def add_query_params_to_url_exc (base_url : String) (params : Option (List (String × PyObj))) :
    Except String String :=
  match params with
  | Option.none => Except.ok base_url
  | Option.some ps =>
    if ps.isEmpty then Except.ok base_url
    else
      match cleanedLoopE [] ps with
      | Except.error e => Except.error e
      | Except.ok cleaned_params =>
        if cleaned_params.isEmpty then Except.ok base_url
        else
          let encoded_query := urlencodeDoseq cleaned_params
          let separator := chooseSeparator base_url
          Except.ok (base_url ++ separator ++ encoded_query)

/-- The numeric value of a hexadecimal digit character, accepting both
cases, as standard URL decoding does. -/
def hexVal (c : Char) : Option Nat :=
  if 48 ≤ c.toNat ∧ c.toNat ≤ 57 then Option.some (c.toNat - 48)
  else if 65 ≤ c.toNat ∧ c.toNat ≤ 70 then Option.some (c.toNat - 55)
  else if 97 ≤ c.toNat ∧ c.toNat ≤ 102 then Option.some (c.toNat - 87)
  else Option.none

/-- Standard URL decoding of an `application/x-www-form-urlencoded`
component over the ASCII range (the inverse direction of `quote_plus`):
`+` becomes a space, `%xy` becomes the character with code `16*x + y`,
every other character stands for itself; a malformed percent-escape is
rejected. -/
def unquotePlusChars : List Char → Option (List Char)
  | [] => Option.some []
  | c :: rest =>
    if c = Char.ofNat 37 then
      match rest with
      | h1 :: h2 :: rest2 =>
        match hexVal h1, hexVal h2, unquotePlusChars rest2 with
        | Option.some a, Option.some b, Option.some out =>
          Option.some (Char.ofNat (16 * a + b) :: out)
        | _, _, _ => Option.none
      | _ => Option.none
    else if c = Char.ofNat 43 then
      match unquotePlusChars rest with
      | Option.some out => Option.some (' ' :: out)
      | Option.none => Option.none
    else
      match unquotePlusChars rest with
      | Option.some out => Option.some (c :: out)
      | Option.none => Option.none

/-- URL decoding on strings. -/
def unquotePlus (s : String) : Option String :=
  match unquotePlusChars s.data with
  | Option.some out => Option.some (String.mk out)
  | Option.none => Option.none

/-! ### Helper lemmas about the cleaning loop -/

theorem cleanedLoop_all_none (d : List (String × String)) (ps : List (String × PyVal))
    (h : ∀ p ∈ ps, p.2.isNone = true) : cleanedLoop d ps = d := by
  induction ps generalizing d with
  | nil => rfl
  | cons p rest ih =>
    have hp : p.2.isNone = true := h p (List.mem_cons_self p rest)
    simp only [cleanedLoop, hp, if_true]
    exact ih d (fun q hq => h q (List.mem_cons_of_mem p hq))

theorem dictInsert_of_fresh (d : List (String × String)) (k v : String)
    (h : ∀ p ∈ d, p.1 ≠ k) : dictInsert d k v = d ++ [(k, v)] := by
  have hany : d.any (fun p => p.1 == k) = false := by
    rw [List.any_eq_false]
    intro p hp
    simpa using h p hp
  simp [dictInsert, hany]

theorem dictInsert_ne_nil (d : List (String × String)) (k v : String) :
    dictInsert d k v ≠ [] := by
  unfold dictInsert
  split
  · cases d with
    | nil => simp_all
    | cons q qs => simp
  · simp

theorem dictInsert_length (d : List (String × String)) (k v : String) :
    d.length ≤ (dictInsert d k v).length := by
  unfold dictInsert
  split
  · simp
  · simp

theorem cleanedLoop_length (d : List (String × String)) (ps : List (String × PyVal)) :
    d.length ≤ (cleanedLoop d ps).length := by
  induction ps generalizing d with
  | nil => exact Nat.le_refl _
  | cons p rest ih =>
    simp only [cleanedLoop]
    split
    · exact ih d
    · exact Nat.le_trans (dictInsert_length d p.1 (pyStr p.2)) (ih _)

theorem cleanedLoop_ne_nil (d : List (String × String)) (ps : List (String × PyVal))
    (h : d ≠ []) : cleanedLoop d ps ≠ [] := by
  intro hnil
  have h1 : 1 ≤ d.length := by
    cases d with
    | nil => exact absurd rfl h
    | cons q qs => simp
  have h2 := cleanedLoop_length d ps
  rw [hnil] at h2
  have h3 : d.length ≤ 0 := by simpa using h2
  omega

theorem cleanedParams_ne_nil (ps : List (String × PyVal))
    (h : ∃ p ∈ ps, p.2.isNone = false) : cleanedParams ps ≠ [] := by
  obtain ⟨p, hmem, hp⟩ := h
  unfold cleanedParams
  induction ps with
  | nil => exact absurd hmem (List.not_mem_nil p)
  | cons q rest ih =>
    rcases List.mem_cons.mp hmem with hq | hrest
    · subst hq
      simp only [cleanedLoop, hp, Bool.false_eq_true, if_false]
      exact cleanedLoop_ne_nil _ rest (dictInsert_ne_nil [] p.1 (pyStr p.2))
    · simp only [cleanedLoop]
      split
      · exact ih hrest
      · exact cleanedLoop_ne_nil _ rest (dictInsert_ne_nil [] q.1 (pyStr q.2))

theorem cleanedLoop_nodup (ps : List (String × PyVal)) (d : List (String × String))
    (h : (d.map Prod.fst ++ ps.map Prod.fst).Nodup) :
    cleanedLoop d ps =
      d ++ (ps.filter (fun p => !p.2.isNone)).map (fun p => (p.1, pyStr p.2)) := by
  induction ps generalizing d with
  | nil => simp [cleanedLoop]
  | cons p rest ih =>
    simp only [cleanedLoop]
    by_cases hp : p.2.isNone = true
    · rw [if_pos hp]
      have h2 : (d.map Prod.fst ++ (rest.map Prod.fst)).Nodup := by
        refine List.Nodup.sublist ?_ h
        exact List.Sublist.append_left (List.sublist_cons_self _ _) _
      rw [ih d h2]
      simp [List.filter_cons, hp]
    · rw [if_neg hp]
      have hfresh : ∀ q ∈ d, q.1 ≠ p.1 := by
        intro q hq
        have hnot : p.1 ∉ d.map Prod.fst := by
          have := (List.nodup_append.mp h).2.2
          intro hin
          exact this hin (by simp)
        intro heq
        exact hnot (heq ▸ List.mem_map_of_mem Prod.fst hq)
      rw [dictInsert_of_fresh d p.1 (pyStr p.2) hfresh]
      have h2 : ((d ++ [(p.1, pyStr p.2)]).map Prod.fst ++ rest.map Prod.fst).Nodup := by
        simpa [List.append_assoc] using h
      rw [ih _ h2]
      simp [List.filter_cons, hp]

theorem cleanedParams_nodup (ps : List (String × PyVal))
    (h : (ps.map Prod.fst).Nodup) :
    cleanedParams ps =
      (ps.filter (fun p => !p.2.isNone)).map (fun p => (p.1, pyStr p.2)) := by
  unfold cleanedParams
  rw [cleanedLoop_nodup ps [] (by simpa using h)]
  simp

theorem isEmpty_false_of_ne_nil {α : Type} {l : List α} (h : l ≠ []) : l.isEmpty = false := by
  cases l with
  | nil => exact absurd rfl h
  | cons a as => rfl

theorem add_query_eq_append (base : String) (ps : List (String × PyVal))
    (h : ∃ p ∈ ps, p.2.isNone = false) :
    Urls.add_query_params_to_url base (Option.some ps) =
      base ++ chooseSeparator base ++ urlencodeDoseq (cleanedParams ps) := by
  obtain ⟨p, hmem, hp⟩ := h
  have hps : ps.isEmpty = false := by
    apply isEmpty_false_of_ne_nil
    intro hnil
    rw [hnil] at hmem
    exact List.not_mem_nil p hmem
  have hc : (cleanedParams ps).isEmpty = false :=
    isEmpty_false_of_ne_nil (cleanedParams_ne_nil ps ⟨p, hmem, hp⟩)
  simp [Urls.add_query_params_to_url, hps, hc]

/-! ### Helper lemmas about the exception-propagating version -/

theorem cleanedLoopE_map_val (ps : List (String × PyVal)) (d : List (String × String)) :
    cleanedLoopE d (ps.map (fun p => (p.1, PyObj.val p.2))) = Except.ok (cleanedLoop d ps) := by
  induction ps generalizing d with
  | nil => rfl
  | cons p rest ih =>
    simp only [List.map_cons, cleanedLoopE, cleanedLoop, PyObj.isNoneObj, pyStrE]
    split
    · exact ih d
    · exact ih _

theorem cleanedLoopE_ok_iff (qs : List (String × PyObj)) (d : List (String × String)) :
    (∃ out, cleanedLoopE d qs = Except.ok out) ↔ ∀ p ∈ qs, p.2.isBad = false := by
  induction qs generalizing d with
  | nil => simp [cleanedLoopE]
  | cons p rest ih =>
    cases hobj : p.2 with
    | val v =>
      simp only [cleanedLoopE, hobj, PyObj.isNoneObj, pyStrE]
      split
      · rw [ih d]
        simp [hobj, PyObj.isBad]
      · rw [ih _]
        simp [hobj, PyObj.isBad]
    | bad =>
      simp only [cleanedLoopE, hobj, PyObj.isNoneObj, pyStrE]
      constructor
      · intro hex
        obtain ⟨out, hout⟩ := hex
        exact absurd hout (by simp)
      · intro hall
        have := hall p (List.mem_cons_self p rest)
        rw [hobj] at this
        exact absurd this (by simp [PyObj.isBad])

/-! ### Helper lemmas about encoding and decoding -/

theorem hexVal_hexDigit : ∀ n : Nat, n < 16 → hexVal (hexDigit n) = Option.some n := by
  decide

theorem isUrlSafe_toNat (c : Char) (h : isUrlSafe c = true) :
    c.toNat ≠ 37 ∧ c.toNat ≠ 43 := by
  simp only [isUrlSafe, Bool.or_eq_true, Bool.and_eq_true, decide_eq_true_eq,
    beq_iff_eq] at h
  omega

theorem char_ne_of_toNat_ne (c : Char) (m : Nat) (hm : (Char.ofNat m).toNat = m)
    (h : c.toNat ≠ m) : c ≠ Char.ofNat m := by
  intro heq
  rw [heq, hm] at h
  exact h rfl

theorem unquote_quoteChar (c : Char) (hc : c.toNat < 128) (rest out : List Char)
    (h : unquotePlusChars rest = Option.some out) :
    unquotePlusChars (quotePlusChar c ++ rest) = Option.some (c :: out) := by
  by_cases hsafe : isUrlSafe c = true
  · have hne := isUrlSafe_toNat c hsafe
    have h37 : ¬ c = Char.ofNat 37 := char_ne_of_toNat_ne c 37 (by decide) hne.1
    have h43 : ¬ c = Char.ofNat 43 := char_ne_of_toNat_ne c 43 (by decide) hne.2
    have e : quotePlusChar c ++ rest = c :: rest := by
      simp [quotePlusChar, hsafe]
    rw [e, unquotePlusChars.eq_def]
    simp [h37, h43, h]
  · by_cases hsp : c = ' '
    · subst hsp
      have e : quotePlusChar ' ' ++ rest = Char.ofNat 43 :: rest := by
        rw [show quotePlusChar ' ' = [Char.ofNat 43] from by decide]
        rfl
      rw [e, unquotePlusChars.eq_def]
      simp [h, show ¬ Char.ofNat 43 = Char.ofNat 37 from by decide]
    · have e : quotePlusChar c ++ rest =
          Char.ofNat 37 :: hexDigit (c.toNat / 16) :: hexDigit (c.toNat % 16) :: rest := by
        simp [quotePlusChar, hsafe, hsp, utf8Bytes, hc, percentEncodeByte]
      rw [e, unquotePlusChars.eq_def]
      simp [hexVal_hexDigit (c.toNat / 16) (by omega),
        hexVal_hexDigit (c.toNat % 16) (by omega), h, Nat.div_add_mod c.toNat 16]

theorem unquote_quote_list (l : List Char) (hl : ∀ c ∈ l, c.toNat < 128) :
    unquotePlusChars ((l.map quotePlusChar).flatten) = Option.some l := by
  induction l with
  | nil => rfl
  | cons c cs ih =>
    simp only [List.map_cons, List.flatten_cons]
    exact unquote_quoteChar c (hl c (List.mem_cons_self c cs)) _ cs
      (ih (fun x hx => hl x (List.mem_cons_of_mem c hx)))

theorem unquotePlus_quotePlus (v : String) (hv : ∀ c ∈ v.data, c.toNat < 128) :
    unquotePlus (quotePlus v) = Option.some v := by
  obtain ⟨l⟩ := v
  simp only [unquotePlus, quotePlus]
  rw [unquote_quote_list l hv]

theorem intercalate_singleton (s x : String) : String.intercalate s [x] = x := by
  simp [String.intercalate, String.intercalate.go]

theorem urlencodeDoseq_singleton (k v : String) :
    urlencodeDoseq [(k, v)] = quotePlus k ++ "=" ++ quotePlus v := by
  simp [urlencodeDoseq, intercalate_singleton]

theorem str_append_empty (s : String) : s ++ "" = s := by
  obtain ⟨l⟩ := s
  show String.mk (l ++ []) = String.mk l
  rw [List.append_nil]

theorem cleanedParams_single_non_none (k : String) (v : PyVal) (hv : v.isNone = false) :
    cleanedParams [(k, v)] = [(k, pyStr v)] := by
  simp [cleanedParams, cleanedLoop, hv, dictInsert]

/-! ### The claims -/

/-- C1: for every `base_url`, `add_query_params_to_url(base_url, params)`
returns `base_url` unchanged when `params` is absent (`None`) or empty, and
also when every value in `params` is the omit-sentinel `None`. -/
theorem C1_empty_or_all_none_params_return_base (base : String)
    (ps : List (String × PyVal)) (h : ∀ p ∈ ps, p.2.isNone = true) :
    Urls.add_query_params_to_url base Option.none = base ∧
    Urls.add_query_params_to_url base (Option.some []) = base ∧
    Urls.add_query_params_to_url base (Option.some ps) = base := by
  refine ⟨rfl, rfl, ?_⟩
  have hc : cleanedParams ps = [] := cleanedLoop_all_none [] ps h
  simp [Urls.add_query_params_to_url, hc]

/-- Witness for C1 at a concrete base URL and an all-`None` mapping. -/
theorem C1_witness :
    Urls.add_query_params_to_url "http://x/y" Option.none = "http://x/y" ∧
    Urls.add_query_params_to_url "http://x/y" (Option.some []) = "http://x/y" ∧
    Urls.add_query_params_to_url "http://x/y"
      (Option.some [("a", PyVal.none)]) = "http://x/y" :=
  C1_empty_or_all_none_params_return_base "http://x/y" [("a", PyVal.none)] (by decide)

/-- C2: when at least one parameter value is not `None`, the result is
`base_url` followed by the separator — empty if `base_url` ends with `?`
or `&`, `&` if `base_url` contains `?` anywhere, `?` otherwise — followed
by the encoded query string; in particular on the two concrete examples of
the claim. -/
theorem C2_separator_selection (base : String) (ps : List (String × PyVal))
    (h : ∃ p ∈ ps, p.2.isNone = false) :
    Urls.add_query_params_to_url base (Option.some ps) =
      base ++ (if pyEndsWith base "?" || pyEndsWith base "&" then ""
               else if pyContains base '?' then "&" else "?")
        ++ urlencodeDoseq (cleanedParams ps) ∧
    Urls.add_query_params_to_url "http://x/y"
      (Option.some [("a", PyVal.int 1)]) = "http://x/y?a=1" ∧
    Urls.add_query_params_to_url "http://x/y?b=2"
      (Option.some [("a", PyVal.int 1)]) = "http://x/y?b=2&a=1" := by
  refine ⟨?_, by decide, by decide⟩
  rw [add_query_eq_append base ps h]
  rfl

/-- Witness for C2 at a concrete base URL and one non-`None` parameter. -/
theorem C2_witness :
    Urls.add_query_params_to_url "u" (Option.some [("a", PyVal.int 1)]) =
      "u" ++ (if pyEndsWith "u" "?" || pyEndsWith "u" "&" then ""
              else if pyContains "u" '?' then "&" else "?")
        ++ urlencodeDoseq (cleanedParams [("a", PyVal.int 1)]) ∧
    Urls.add_query_params_to_url "http://x/y"
      (Option.some [("a", PyVal.int 1)]) = "http://x/y?a=1" ∧
    Urls.add_query_params_to_url "http://x/y?b=2"
      (Option.some [("a", PyVal.int 1)]) = "http://x/y?b=2&a=1" :=
  C2_separator_selection "u" [("a", PyVal.int 1)]
    ⟨("a", PyVal.int 1), by simp, by decide⟩

/-- C3: entries whose value is `None` are omitted from the cleaned mapping
that is encoded (not rendered as empty-string parameters) while every
entry with a non-`None` value is kept, with its value coerced by `str`;
and on the claim's example the `None` entry disappears from the output. -/
theorem C3_none_values_omitted (ps : List (String × PyVal))
    (h : (ps.map Prod.fst).Nodup) :
    cleanedParams ps =
      (ps.filter (fun p => !p.2.isNone)).map (fun p => (p.1, pyStr p.2)) ∧
    Urls.add_query_params_to_url "http://x/y"
      (Option.some [("a", PyVal.none), ("b", PyVal.int 2)]) = "http://x/y?b=2" :=
  ⟨cleanedParams_nodup ps h, by decide⟩

/-- Witness for C3 at the claim's concrete mapping. -/
theorem C3_witness :
    cleanedParams [("a", PyVal.none), ("b", PyVal.int 2)] =
      (([("a", PyVal.none), ("b", PyVal.int 2)]).filter
        (fun p => !p.2.isNone)).map (fun p => (p.1, pyStr p.2)) ∧
    Urls.add_query_params_to_url "http://x/y"
      (Option.some [("a", PyVal.none), ("b", PyVal.int 2)]) = "http://x/y?b=2" :=
  C3_none_values_omitted [("a", PyVal.none), ("b", PyVal.int 2)] (by decide)

/-- C5 counterexample: a list value is not serialized as repeated
`key=value` pairs; on `{"a": [1, 2]}` the output is a single pair whose
value is the percent-encoded `str` representation `[1, 2]`, not
`a=1&a=2`. -/
theorem C5_counterexample :
    Urls.add_query_params_to_url "http://x/y"
        (Option.some [("a", PyVal.list [PyVal.int 1, PyVal.int 2])]) =
      "http://x/y?a=%5B1%2C+2%5D" ∧
    Urls.add_query_params_to_url "http://x/y"
        (Option.some [("a", PyVal.list [PyVal.int 1, PyVal.int 2])]) ≠
      "http://x/y?a=1&a=2" := by
  constructor
  · decide
  · decide

/-- C5 amended: a parameter whose value is a list is first coerced with
`str` and then serialized as a single `key=value` pair whose value is the
URL-encoding of that text representation; the `doseq` flag passed to
`urlencode` never produces repeated keys because every value has already
been coerced to a string. -/
theorem C5_amended_list_is_single_pair (base k : String) (vs : List PyVal) :
    Urls.add_query_params_to_url base (Option.some [(k, PyVal.list vs)]) =
      base ++ chooseSeparator base ++
        (quotePlus k ++ "=" ++ quotePlus (pyStr (PyVal.list vs))) := by
  rw [add_query_eq_append base _ ⟨(k, PyVal.list vs), by simp, rfl⟩]
  rw [cleanedParams_single_non_none k (PyVal.list vs) rfl, urlencodeDoseq_singleton]

/-- C10: the copy of `add_query_params_to_url` in `main.py` and the copy
in `general/urls.py` are extensionally equal: on every base URL and every
parameter mapping they return the same string. -/
theorem C10_main_urls_copies_agree (base : String)
    (params : Option (List (String × PyVal))) :
    Main.add_query_params_to_url base params = Urls.add_query_params_to_url base params :=
  rfl

theorem add_query_params_to_url_st_eq (base : String)
    (params : Option (List (String × PyVal))) :
    add_query_params_to_url_st base params =
      (Urls.add_query_params_to_url base params, base, params) := by
  obtain _ | ps := params
  · rfl
  · simp only [add_query_params_to_url_st, Urls.add_query_params_to_url]
    split
    · rfl
    · split
      · rfl
      · rfl

/-- C4: the function is pure — the state-passing rendering returns the
argument variables unchanged alongside the result, and two calls on equal
base URLs and equal (same entries, same order) mappings return equal
strings. -/
theorem C4_pure_no_mutation (base base2 : String)
    (params params2 : Option (List (String × PyVal)))
    (hb : base2 = base) (hp : params2 = params) :
    (add_query_params_to_url_st base params).1 =
        Urls.add_query_params_to_url base params ∧
    (add_query_params_to_url_st base params).2.1 = base ∧
    (add_query_params_to_url_st base params).2.2 = params ∧
    Urls.add_query_params_to_url base2 params2 =
        Urls.add_query_params_to_url base params := by
  rw [add_query_params_to_url_st_eq, hb, hp]
  exact ⟨rfl, rfl, rfl, rfl⟩

/-- Witness for C4 at one concrete call made twice. -/
theorem C4_witness :
    (add_query_params_to_url_st "http://x/y" (Option.some [("a", PyVal.int 1)])).1 =
        Urls.add_query_params_to_url "http://x/y" (Option.some [("a", PyVal.int 1)]) ∧
    (add_query_params_to_url_st "http://x/y" (Option.some [("a", PyVal.int 1)])).2.1 =
        "http://x/y" ∧
    (add_query_params_to_url_st "http://x/y" (Option.some [("a", PyVal.int 1)])).2.2 =
        Option.some [("a", PyVal.int 1)] ∧
    Urls.add_query_params_to_url "http://x/y" (Option.some [("a", PyVal.int 1)]) =
        Urls.add_query_params_to_url "http://x/y" (Option.some [("a", PyVal.int 1)]) :=
  C4_pure_no_mutation "http://x/y" "http://x/y"
    (Option.some [("a", PyVal.int 1)]) (Option.some [("a", PyVal.int 1)]) rfl rfl

/-- C6: for a plain (ASCII) value string, the value portion of the query
component appended by `add_query_params_to_url` is `quote_plus` of the
value, and URL-decoding it returns the original value string exactly; and
in every cleaned mapping, each entry's encoded value portion decodes back
to that entry's value string exactly. -/
theorem C6_decoding_value_roundtrip (k v : String) (ps : List (String × PyVal))
    (hv : ∀ c ∈ v.data, c.toNat < 128) :
    Urls.add_query_params_to_url "http://x/y" (Option.some [(k, PyVal.str v)]) =
      "http://x/y" ++ "?" ++ (quotePlus k ++ "=" ++ quotePlus v) ∧
    unquotePlus (quotePlus v) = Option.some v ∧
    ∀ p ∈ cleanedParams ps, (∀ c ∈ p.2.data, c.toNat < 128) →
      unquotePlus (quotePlus p.2) = Option.some p.2 := by
  refine ⟨?_, unquotePlus_quotePlus v hv, ?_⟩
  · rw [add_query_eq_append _ _ ⟨(k, PyVal.str v), by simp, rfl⟩]
    rw [cleanedParams_single_non_none k (PyVal.str v) rfl, urlencodeDoseq_singleton]
    rw [show chooseSeparator "http://x/y" = "?" from by decide]
    rfl
  · intro p _ hpc
    exact unquotePlus_quotePlus p.2 hpc

/-- Witness for C6 at the claim's example value `a b&c`. -/
theorem C6_witness :
    Urls.add_query_params_to_url "http://x/y" (Option.some [("q", PyVal.str "a b&c")]) =
      "http://x/y" ++ "?" ++ (quotePlus "q" ++ "=" ++ quotePlus "a b&c") ∧
    unquotePlus (quotePlus "a b&c") = Option.some "a b&c" ∧
    ∀ p ∈ cleanedParams [("q", PyVal.str "a b&c")],
      (∀ c ∈ p.2.data, c.toNat < 128) →
        unquotePlus (quotePlus p.2) = Option.some p.2 :=
  C6_decoding_value_roundtrip "q" "a b&c" [("q", PyVal.str "a b&c")] (by decide)

/-- C7: the non-`None` parameters appear in the encoded query string in
their insertion order in the mapping: the encoded query is the `&`-join of
one `key=value` pair per non-`None` entry, taken in the order of `params`,
and the keys of the cleaned mapping are the non-`None` keys in that same
order. -/
theorem C7_insertion_order_preserved (ps : List (String × PyVal))
    (h : (ps.map Prod.fst).Nodup) :
    urlencodeDoseq (cleanedParams ps) =
      String.intercalate "&" ((ps.filter (fun p => !p.2.isNone)).map
        (fun p => quotePlus p.1 ++ "=" ++ quotePlus (pyStr p.2))) ∧
    (cleanedParams ps).map Prod.fst =
      (ps.filter (fun p => !p.2.isNone)).map Prod.fst := by
  rw [cleanedParams_nodup ps h]
  constructor
  · simp [urlencodeDoseq, List.map_map]
    rfl
  · simp [List.map_map]

/-- Witness for C7 at a three-entry mapping with a `None` in the middle. -/
theorem C7_witness :
    urlencodeDoseq (cleanedParams
        [("b", PyVal.int 2), ("a", PyVal.none), ("c", PyVal.str "x")]) =
      String.intercalate "&"
        ((([("b", PyVal.int 2), ("a", PyVal.none), ("c", PyVal.str "x")]).filter
          (fun p => !p.2.isNone)).map
            (fun p => quotePlus p.1 ++ "=" ++ quotePlus (pyStr p.2))) ∧
    (cleanedParams [("b", PyVal.int 2), ("a", PyVal.none), ("c", PyVal.str "x")]).map
        Prod.fst =
      (([("b", PyVal.int 2), ("a", PyVal.none), ("c", PyVal.str "x")]).filter
        (fun p => !p.2.isNone)).map Prod.fst :=
  C7_insertion_order_preserved
    [("b", PyVal.int 2), ("a", PyVal.none), ("c", PyVal.str "x")] (by decide)

/-- C8: on a mapping whose values are all coercible to text the function
returns a complete string and raises no error; the call succeeds exactly
when no parameter value is the uncoercible object, so it raises only on a
coercion failure, which propagates uncaught with no partial result. -/
theorem C8_failure_semantics (base : String) (ps : List (String × PyVal))
    (qs : List (String × PyObj)) :
    add_query_params_to_url_exc base Option.none = Except.ok base ∧
    add_query_params_to_url_exc base
        (Option.some (ps.map (fun p => (p.1, PyObj.val p.2)))) =
      Except.ok (Urls.add_query_params_to_url base (Option.some ps)) ∧
    ((∃ s, add_query_params_to_url_exc base (Option.some qs) = Except.ok s) ↔
      ∀ p ∈ qs, p.2.isBad = false) := by
  refine ⟨rfl, ?_, ?_⟩
  · cases ps with
    | nil => rfl
    | cons p rest =>
      simp only [add_query_params_to_url_exc, Urls.add_query_params_to_url,
        cleanedLoopE_map_val, cleanedParams]
      cases hemp : (cleanedLoop [] (p :: rest)).isEmpty <;> simp [hemp]
  · constructor
    · rintro ⟨s, hs⟩
      rw [← cleanedLoopE_ok_iff qs []]
      cases qs with
      | nil => exact ⟨[], rfl⟩
      | cons q rest =>
        simp only [add_query_params_to_url_exc, List.isEmpty_cons] at hs
        cases hE : cleanedLoopE [] (q :: rest) with
        | error e =>
          rw [hE] at hs
          simp at hs
        | ok cp => exact ⟨cp, rfl⟩
    · intro hall
      obtain ⟨out, hout⟩ := (cleanedLoopE_ok_iff qs []).mpr hall
      cases qs with
      | nil => exact ⟨base, rfl⟩
      | cons q rest =>
        refine ⟨if out.isEmpty then base
                else base ++ chooseSeparator base ++ urlencodeDoseq out, ?_⟩
        simp only [add_query_params_to_url_exc, List.isEmpty_cons,
          Bool.false_eq_true, if_false, hout]
        split <;> rfl

/-- C9: for every base URL, well formed or not, the returned string is the
base URL followed by an appended suffix (possibly empty); the suffix does
not depend on the base URL beyond its separator probe, so the function
never validates, parses, rewrites or de-duplicates any part of it. -/
theorem C9_base_url_passed_through (base : String)
    (params : Option (List (String × PyVal))) :
    (∃ suf, Urls.add_query_params_to_url base params = base ++ suf) ∧
    ∀ base2, chooseSeparator base2 = chooseSeparator base →
      ∃ suf, Urls.add_query_params_to_url base params = base ++ suf ∧
        Urls.add_query_params_to_url base2 params = base2 ++ suf := by
  have key : ∀ b : String, Urls.add_query_params_to_url b params =
      b ++ (match params with
            | Option.none => ""
            | Option.some ps =>
              if ps.isEmpty then ""
              else if (cleanedParams ps).isEmpty then ""
              else chooseSeparator b ++ urlencodeDoseq (cleanedParams ps)) := by
    intro b
    obtain _ | ps := params
    · exact (str_append_empty b).symm
    · simp only [Urls.add_query_params_to_url]
      split
      · exact (str_append_empty b).symm
      · split
        · exact (str_append_empty b).symm
        · rw [String.append_assoc]
  constructor
  · exact ⟨_, key base⟩
  · intro base2 hsep
    refine ⟨_, key base, ?_⟩
    rw [key base2]
    obtain _ | ps := params
    · rfl
    · simp only [hsep]

end SushiTrain
